import Mathlib

/-!
# Verification of the core pipeline of `utils.py`

Shallow embedding of the three core functions of the repository's `utils.py`:

* `robust_parse_dates` (lines 19–54): cascading date-parse strategies;
* `compute_sma` (lines 56–63): per-stock rolling averages and daily returns;
* `compute_insights` (lines 65–89): scalar summary and trend signal.

Modeling conventions:

* Timestamps are integers (`TS`); numeric cell values are rationals (`ℚ`),
  i.e. the float data is assumed NaN-free; the NaN produced by a *missing
  column* (`np.nan` at lines 73–74 of `utils.py`) is modeled explicitly with
  `Option`.
* The pandas parsing primitives (`pd.to_datetime`, `pd.to_numeric`) are
  library calls, not code of this repository; they enter the embedding as
  function parameters of `robust_parse_dates`, so every theorem about the
  cascade holds for arbitrary behavior of those primitives (or is
  instantiated with a concrete table modeling their documented behavior).
* String operations (`str.strip`, regex replacement with literal patterns)
  are implemented structurally on character lists so that they compute by
  kernel reduction.
-/

/-- Timestamps (`pd.Timestamp` values), encoded as integers. -/
abbrev TS := Int

/-- A raw entry of a date-like column handed to `robust_parse_dates`:
a string, a number, or a missing value (`NaN`/`None`). -/
inductive RawVal where
  | str (s : String)
  | num (q : ℚ)
  | null
deriving DecidableEq

/-- Strip leading and trailing whitespace from a character list
(`str.strip()` in `utils.py` line 22). -/
def trimChars (cs : List Char) : List Char :=
  ((cs.dropWhile Char.isWhitespace).reverse.dropWhile Char.isWhitespace).reverse

/-- Replace every (non-overlapping, leftmost-first) occurrence of `pat` by
`rep`, fuel-driven so that the recursion is structural; with `fuel ≥ cs.length`
this is ordinary replace-all, which is how it is always used below. -/
def replaceLoop (pat rep : List Char) : Nat → List Char → List Char
  | 0, cs => cs
  | _ + 1, [] => []
  | fuel + 1, c :: rest =>
    if pat.isPrefixOf (c :: rest) && !pat.isEmpty then
      rep ++ replaceLoop pat rep fuel ((c :: rest).drop pat.length)
    else
      c :: replaceLoop pat rep fuel rest

/-- Replace every occurrence of the literal substring `pat` by `rep` in `s`;
models both `Series.str.replace(pat, rep, regex=False)` and `re.sub` with a
literal (unanchored) pattern. -/
def replaceAll (pat rep s : String) : String :=
  ⟨replaceLoop pat.data rep.data s.data.length s.data⟩

/-- `str.strip()` on a string. -/
def trimStr (s : String) : String := ⟨trimChars s.data⟩

/-- `series.fillna("").astype(str)` (line 22): missing values become the empty
string, every other entry is coerced to text.  Numeric entries are rendered by
`toString`; Python's float formatting differs cosmetically, which no claim
depends on (the parse primitives are parameters wherever numeric strings
matter). -/
def rawToStr : RawVal → String
  | .str s => s
  | .num q => toString q
  | .null => ""

/-- The textual pre-clean of one entry (`utils.py` lines 21–24):
`fillna("")`, `astype(str)`, `str.strip()`, then the replacement dict
`{"^none$": "", "^nan$": "", "N/A": "", "NA": ""}` applied with `regex=True`,
pattern by pattern in dict order.  The anchored patterns `^none$`/`^nan$`
match the whole (trimmed) string case-sensitively; the unanchored patterns
`N/A`/`NA` delete every occurrence of the substring, case-sensitively. -/
def cleanEntry (v : RawVal) : String :=
  replaceAll "NA" "" (replaceAll "N/A" ""
    (if trimStr (rawToStr v) = "none" then ""
     else if trimStr (rawToStr v) = "nan" then ""
     else trimStr (rawToStr v)))

/-- The pre-cleaned series `s` of `robust_parse_dates` (lines 21–24). -/
def preClean (series : List RawVal) : List String := series.map cleanEntry

/-- `s.str.replace("/", "-", regex=False)` (line 37). -/
def slashToDash (s : String) : String := replaceAll "/" "-" s

/-- `Series.notna().sum()`: the number of non-null entries. -/
def countSome {α : Type*} : List (Option α) → Nat
  | [] => 0
  | some _ :: t => countSome t + 1
  | none :: t => countSome t

/-- `Series.max(skipna=True)` on a numeric column: the maximum of the non-null
entries, `none` when all entries are null (pandas returns `NaN` then, which the
caller at line 46 guards with `pd.notna`). -/
def maxQ (xs : List (Option ℚ)) : Option ℚ :=
  match xs.filterMap id with
  | [] => none
  | c :: t => some (t.foldl max c)

/-- `a.fillna(b)` for two index-aligned series: the entries of `a`, with its
nulls filled from the same position of `b`. -/
def fillna (a b : List (Option TS)) : List (Option TS) :=
  List.zipWith (fun x y => match x with | some t => some t | none => y) a b

/-- `robust_parse_dates` (`utils.py` lines 19–54), parameterized over the
pandas primitives it calls:

* `parse df xs` models `pd.to_datetime(xs, errors="coerce",
  infer_datetime_format=True, dayfirst=df)` on a whole series of cleaned
  strings, one `Option` timestamp per entry (line 27, 32 and — with the
  default `dayfirst=False` — line 38);
* `toNumeric` models the elementwise `pd.to_numeric(·, errors="coerce")`
  of line 43, applied to the *original* series;
* `epochMs` / `epochS` model `pd.to_datetime(·, unit="ms"/"s",
  errors="coerce")` on a single number (lines 48 and 51).

The float threshold `len(s) * 0.6` of line 28 is modeled exactly by the
rational comparison `10 * count ≥ 6 * len`: for an integer count, a
representable integer bound and series lengths far below `2^52`, the float
comparison and the exact comparison agree. -/
def robust_parse_dates (parse : Bool → List String → List (Option TS))
    (toNumeric : RawVal → Option ℚ) (epochMs epochS : ℚ → Option TS)
    (series : List RawVal) : List (Option TS) :=
  let s := preClean series
  let parsed := parse false s
  if 10 * countSome parsed ≥ 6 * s.length then parsed
  else
    let parsed2 := parse true s
    let parsed := if countSome parsed2 > countSome parsed then parsed2 else parsed
    let s2 := s.map slashToDash
    let parsed3 := parse false s2
    let parsed := if countSome parsed3 > countSome parsed then parsed3 else parsed
    let numeric := series.map toNumeric
    if 0 < countSome numeric then
      match maxQ numeric with
      | some maxv =>
        if maxv > 10 ^ 12 then fillna parsed (numeric.map fun o => o.bind epochMs)
        else if maxv > 10 ^ 9 then fillna parsed (numeric.map fun o => o.bind epochS)
        else parsed
      | none => parsed
    else parsed

/-- Strategy A of the spec: generic inference, month-before-day
(`pd.to_datetime(..., dayfirst=False)` on the cleaned series, line 27). -/
def strategyA (parse : Bool → List String → List (Option TS))
    (series : List RawVal) : List (Option TS) :=
  parse false (preClean series)

/-- Strategy B of the spec: generic inference, day-before-month (line 32). -/
def strategyB (parse : Bool → List String → List (Option TS))
    (series : List RawVal) : List (Option TS) :=
  parse true (preClean series)

/-- Strategy C of the spec: slashes normalized to dashes, then generic
inference (lines 37–38). -/
def strategyC (parse : Bool → List String → List (Option TS))
    (series : List RawVal) : List (Option TS) :=
  parse false ((preClean series).map slashToDash)

/-- The running-best reduction over full-series candidates: a later candidate
replaces the best so far exactly when it parses strictly more entries. -/
def runningBest (first : List (Option TS)) (rest : List (List (Option TS))) :
    List (Option TS) :=
  rest.foldl (fun best c => if countSome c > countSome best then c else best) first

/-- The numeric-epoch step of `robust_parse_dates` (lines 42–52): coerce the
original series to numbers and, depending on the maximum value, fill the still
null entries of `parsed` with an epoch-milliseconds or epoch-seconds
interpretation. -/
def epochFill (toNumeric : RawVal → Option ℚ) (epochMs epochS : ℚ → Option TS)
    (series : List RawVal) (parsed : List (Option TS)) : List (Option TS) :=
  if 0 < countSome (series.map toNumeric) then
    match maxQ (series.map toNumeric) with
    | some maxv =>
      if maxv > 10 ^ 12 then
        fillna parsed ((series.map toNumeric).map fun o => o.bind epochMs)
      else if maxv > 10 ^ 9 then
        fillna parsed ((series.map toNumeric).map fun o => o.bind epochS)
      else parsed
    | none => parsed
  else parsed

example : replaceAll "NA" "" "BANANA" = "BA" := by decide
example : cleanEntry (.str " None ") = "None" := by decide
example : cleanEntry (.str "nan") = "" := by decide
example : preClean [.null, .str " 2024-01-01 "] = ["", "2024-01-01"] := by decide

/-!
## `compute_sma` (`utils.py` lines 56–63)

A row of the input table.  The columns the code touches are explicit fields
(`Stock` as an integer entity id, `Date` as a parsed timestamp, `Close` as a
rational); all remaining columns of the uploaded CSV travel untouched in
`extras`.  pandas compares stock strings and datetimes through their total
linear orders, which the integer model represents faithfully. -/
structure Row where
  stock : Nat
  date : Int
  close : ℚ
  extras : List (String × String)
deriving DecidableEq

/-- A row of the output table: the original row plus the three columns
assigned at lines 60–62. -/
structure AnnRow where
  orig : Row
  sma50 : ℚ
  sma200 : ℚ
  dailyReturn : ℚ
deriving DecidableEq

/-- The lexicographic key of `df.sort_values(["Stock", "Date"])` (line 59). -/
def rowLe (a b : Row) : Prop :=
  a.stock < b.stock ∨ (a.stock = b.stock ∧ a.date ≤ b.date)

instance : DecidableRel rowLe := fun a b => by
  unfold rowLe; infer_instance

instance : IsTotal Row rowLe where
  total a b := by
    rcases Nat.lt_trichotomy a.stock b.stock with h | h | h
    · exact Or.inl (Or.inl h)
    · rcases Int.le_total a.date b.date with h' | h'
      · exact Or.inl (Or.inr ⟨h, h'⟩)
      · exact Or.inr (Or.inr ⟨h.symm, h'⟩)
    · exact Or.inr (Or.inl h)

instance : IsTrans Row rowLe where
  trans a b c hab hbc := by
    rcases hab with h1 | ⟨e1, d1⟩ <;> rcases hbc with h2 | ⟨e2, d2⟩
    · exact Or.inl (Nat.lt_trans h1 h2)
    · exact Or.inl (e2 ▸ h1)
    · exact Or.inl (e1 ▸ h2)
    · exact Or.inr ⟨e1.trans e2, le_trans d1 d2⟩

/-- `df.sort_values(["Stock", "Date"])` (line 59).  For a multi-column key,
pandas sorts with `np.lexsort`, which is stable; any stable sort computes the
same list, and insertion sort is the stable sort with the best lemma support
here. -/
def sortRows (df : List Row) : List Row := List.insertionSort rowLe df

/-- The trailing window of a rolling computation: the last `n` entries
(`x.rolling(n, min_periods=1)` consumes at position `i` the last
`min(n, i+1)` values of the group). -/
def lastN {α : Type*} (n : Nat) (xs : List α) : List α := xs.drop (xs.length - n)

/-- Arithmetic mean of a rational list (pandas `.mean()` on a NaN-free
column). -/
def mean (xs : List ℚ) : ℚ := xs.sum / (xs.length : ℚ)

/-- One pass down the already sorted rows, accumulating the rows seen so far
in `hist`.  For each row `r`, the rows of `hist` with `r`'s stock are exactly
the earlier members of `r`'s group, so
`groupby("Stock")["Close"].transform(lambda x: x.rolling(w, min_periods=1).mean())`
assigns `r` the mean of the trailing `w` closes of its group prefix (lines
60–61), and `groupby("Stock")["Close"].pct_change().fillna(0) * 100` assigns
the percentage change against the previous close of the same group, `0` for
the first row of a group (line 62). -/
def annotateRows (sma_short sma_long : Nat) : List Row → List Row → List AnnRow
  | _, [] => []
  | hist, r :: rest =>
    let prev := (hist.filter fun x => x.stock == r.stock).map Row.close
    let g := prev ++ [r.close]
    { orig := r
      sma50 := mean (lastN sma_short g)
      sma200 := mean (lastN sma_long g)
      dailyReturn :=
        match prev.getLast? with
        | none => 0
        | some p => (r.close / p - 1) * 100 } :: annotateRows sma_short sma_long (hist ++ [r]) rest

/-- `compute_sma` (`utils.py` lines 56–63): copy, sort by `["Stock", "Date"]`,
then assign the two rolling means and the daily return per stock. -/
def compute_sma (df : List Row) (sma_short : Nat := 50) (sma_long : Nat := 200) :
    List AnnRow :=
  annotateRows sma_short sma_long [] (sortRows df)

/-- The names of the columns assigned by `compute_sma` (lines 60–62).  The
assignment targets are the string literals `"SMA_50"`, `"SMA_200"` and
`"Daily_Return"`; the window arguments `sma_short`/`sma_long` do not appear in
them. -/
def smaColumnNames (_sma_short _sma_long : Nat) : List String :=
  ["SMA_50", "SMA_200", "Daily_Return"]

/-!
## `compute_insights` (`utils.py` lines 65–89)
-/

/-- A row of the single-stock frame handed to `compute_insights`.  The fields
beyond `date`/`close` carry the values of the `Daily_Return`/`SMA_50`/`SMA_200`
columns; whether those columns exist at all is frame-level information (see
`StockFrame`). -/
structure InsRow where
  date : Int
  close : ℚ
  dailyReturn : ℚ
  sma50 : ℚ
  sma200 : ℚ
deriving DecidableEq

/-- The input of `compute_insights`: rows plus the presence of the three
optional columns (`"Daily_Return" in d.columns` at line 69, `"SMA_50"` /
`"SMA_200"` at lines 73–74).  When a presence flag is `false` the
corresponding row fields are never consulted. -/
structure StockFrame where
  rows : List InsRow
  hasDailyReturn : Bool
  hasSMA50 : Bool
  hasSMA200 : Bool
deriving DecidableEq

/-- The Python exceptions relevant to `compute_insights`.  `indexError` is the
pandas `IndexError` of `.iloc[-1]` on an empty frame (line 68); `keyError` is
the `KeyError` of selecting a missing column (line 72).  `emptyInputError` and
`undefinedSignalError` are the error names §7 of the spec introduces; no class
of either name exists anywhere in the repository and no code path raises
them. -/
inductive PyError where
  | indexError
  | keyError
  | emptyInputError
  | undefinedSignalError
deriving DecidableEq

/-- The summary dict returned at lines 82–89. -/
structure Insights where
  last_close : ℚ
  return_1d : ℚ
  high : ℚ
  low : ℚ
  avg_daily_return : ℚ
  sma_signal : String
deriving DecidableEq

/-- The key of `stock_df.sort_values("Date")` (line 67). -/
def insLe (a b : InsRow) : Prop := a.date ≤ b.date

instance : DecidableRel insLe := fun a b => by
  unfold insLe; infer_instance

instance : IsTotal InsRow insLe where
  total a b := Int.le_total a.date b.date

instance : IsTrans InsRow insLe where
  trans _ _ _ hab hbc := le_trans hab hbc

/-- `stock_df.sort_values("Date")` (line 67), modeled as a stable sort; the
single-key pandas quicksort may permute rows with equal dates differently,
which no statement below depends on. -/
def sortIns (rows : List InsRow) : List InsRow := List.insertionSort insLe rows

/-- The final row of the date-sorted frame (`d.iloc[-1]`). -/
def lastRowSorted (f : StockFrame) : Option InsRow := (sortIns f.rows).getLast?

/-- `>` between float values that may be the `np.nan` of a missing column
(lines 73–75): any comparison against NaN is `False`. -/
def optGt : Option ℚ → Option ℚ → Bool
  | some a, some b => decide (b < a)
  | _, _ => false

/-- `<` with NaN comparing `False`, as at line 77. -/
def optLt : Option ℚ → Option ℚ → Bool
  | some a, some b => decide (a < b)
  | _, _ => false

/-- Maximum of a column given a seed that is itself an entry of the column
(so the seed never distorts the result); models `d["Close"].max()`. -/
def listMaxFrom (x : ℚ) (xs : List ℚ) : ℚ := xs.foldl max x

/-- Minimum, as `listMaxFrom`; models `d["Close"].min()`. -/
def listMinFrom (x : ℚ) (xs : List ℚ) : ℚ := xs.foldl min x

/-- `compute_insights` (`utils.py` lines 65–89).  Control flow: `.iloc[-1]` on
an empty frame raises `IndexError` (line 68) before anything else; line 72
selects `d["Daily_Return"]` *unconditionally*, so a frame without that column
raises `KeyError` and never returns; the trend signal compares the final
`SMA_50` and `SMA_200` values with NaN-false semantics when either column is
missing (lines 73–80). -/
def compute_insights (f : StockFrame) : Except PyError Insights :=
  match (sortIns f.rows).getLast? with
  | none => .error .indexError
  | some lastRow =>
    if f.hasDailyReturn then
      .ok ⟨lastRow.close,
        if f.hasDailyReturn then lastRow.dailyReturn else 0,
        listMaxFrom lastRow.close ((sortIns f.rows).map InsRow.close),
        listMinFrom lastRow.close ((sortIns f.rows).map InsRow.close),
        ((sortIns f.rows).map InsRow.dailyReturn).sum / (((sortIns f.rows).length : ℚ)),
        if optGt (if f.hasSMA50 then some lastRow.sma50 else none)
            (if f.hasSMA200 then some lastRow.sma200 else none) then
          "Golden Cross (Bullish)"
        else if optLt (if f.hasSMA50 then some lastRow.sma50 else none)
            (if f.hasSMA200 then some lastRow.sma200 else none) then
          "Death Cross (Bearish)"
        else "Neutral"⟩
    else .error .keyError

example :
    compute_sma [⟨1, 0, 100, []⟩] 2 3 =
      [⟨⟨1, 0, 100, []⟩, 100, 100, 0⟩] := by
  norm_num [compute_sma, sortRows, annotateRows, mean, lastN]

example : compute_insights ⟨[], true, true, true⟩ = .error .indexError := rfl

/-!
## Supporting lemmas
-/

section CountSome

variable {α : Type*}

lemma countSome_eq_zero {xs : List (Option α)} (h : countSome xs = 0) :
    ∀ x ∈ xs, x = none := by
  induction xs with
  | nil => simp
  | cons x t ih =>
    cases x with
    | none =>
      intro y hy
      rcases List.mem_cons.mp hy with rfl | hy
      · rfl
      · exact ih (by simpa [countSome] using h) _ hy
    | some a => simp [countSome] at h

lemma countSome_pos {xs : List (Option α)} {x : α} (h : some x ∈ xs) :
    0 < countSome xs := by
  induction xs with
  | nil => simp at h
  | cons y t ih =>
    rcases List.mem_cons.mp h with heq | hmem
    · rw [← heq]; simp [countSome]
    · cases y with
      | none => simpa [countSome] using ih hmem
      | some a => simp [countSome]

end CountSome

lemma length_preClean (series : List RawVal) :
    (preClean series).length = series.length := by
  simp [preClean]

lemma fillna_keep {a b : List (Option TS)} (hlen : a.length = b.length) :
    ∀ {i : Nat} {t : TS}, a[i]? = some (some t) → (fillna a b)[i]? = some (some t) := by
  induction a generalizing b with
  | nil => intro i t h; simp at h
  | cons x a' ih =>
    cases b with
    | nil => simp at hlen
    | cons y b' =>
      intro i t h
      cases i with
      | zero => simp_all [fillna]
      | succ j =>
        simp only [List.getElem?_cons_succ] at h
        simpa [fillna] using ih (by simpa using hlen) h

lemma fillna_all_none {a b : List (Option TS)} (hlen : a.length = b.length)
    (h : ∀ x ∈ a, x = none) : fillna a b = b := by
  induction a generalizing b with
  | nil => cases b with
    | nil => rfl
    | cons y b' => simp at hlen
  | cons x a' ih =>
    cases b with
    | nil => simp at hlen
    | cons y b' =>
      have hx : x = none := h x (by simp)
      subst hx
      simp only [fillna, List.zipWith_cons_cons]
      exact congrArg _ (ih (by simpa using hlen) fun z hz => h z (by simp [hz]))

lemma lt_foldl_max {B c : ℚ} (hc : B < c) :
    ∀ t : List ℚ, (∀ x ∈ t, B < x) → B < t.foldl max c := by
  intro t
  induction t generalizing c with
  | nil => intro _; exact hc
  | cons x t ih =>
    intro h
    exact ih (lt_max_of_lt_left hc) fun y hy => h y (by simp [hy])

lemma maxQ_gt {B : ℚ} {xs : List (Option ℚ)} (hne : xs ≠ [])
    (h : ∀ x ∈ xs, ∃ q, x = some q ∧ B < q) :
    ∃ m, maxQ xs = some m ∧ B < m := by
  have hfm : ∀ q ∈ xs.filterMap id, B < q := by
    intro q hq
    rw [List.mem_filterMap] at hq
    obtain ⟨x, hx, hxq⟩ := hq
    obtain ⟨q', hq', hBq⟩ := h x hx
    subst hq'
    simp only [id, Option.some.injEq] at hxq
    exact hxq ▸ hBq
  cases hfm' : xs.filterMap id with
  | nil =>
    exfalso
    cases xs with
    | nil => exact hne rfl
    | cons x t =>
      obtain ⟨q, hq, _⟩ := h x (by simp)
      subst hq
      simp [List.filterMap_cons] at hfm'
  | cons c t =>
    refine ⟨t.foldl max c, by simp [maxQ, hfm'], ?_⟩
    have hc : B < c := hfm c (by simp [hfm'])
    exact lt_foldl_max hc t fun x hx => hfm x (by simp [hfm', hx])

/-- `robust_parse_dates` as the spec's §9 fold formulation: an early return of
Strategy A when it reaches the 60 % threshold, otherwise the running best of
the three full-series strategies followed by the epoch fill. -/
lemma robust_eq_cascade (parse : Bool → List String → List (Option TS))
    (toNumeric : RawVal → Option ℚ) (epochMs epochS : ℚ → Option TS)
    (series : List RawVal) :
    robust_parse_dates parse toNumeric epochMs epochS series =
      if 10 * countSome (strategyA parse series) ≥ 6 * (preClean series).length then
        strategyA parse series
      else
        epochFill toNumeric epochMs epochS series
          (runningBest (strategyA parse series)
            [strategyB parse series, strategyC parse series]) := rfl

lemma runningBest_mem (a b c : List (Option TS)) :
    runningBest a [b, c] = a ∨ runningBest a [b, c] = b ∨ runningBest a [b, c] = c := by
  simp only [runningBest, List.foldl]
  split_ifs <;> tauto

lemma epochFill_keep (toNumeric : RawVal → Option ℚ) (epochMs epochS : ℚ → Option TS)
    (series : List RawVal) {parsed : List (Option TS)}
    (hlen : parsed.length = series.length) {i : Nat} {t : TS}
    (h : parsed[i]? = some (some t)) :
    (epochFill toNumeric epochMs epochS series parsed)[i]? = some (some t) := by
  unfold epochFill
  split
  · split
    · split
      · exact fillna_keep (by simpa using hlen) h
      · split
        · exact fillna_keep (by simpa using hlen) h
        · exact h
    · exact h
  · exact h

section SortLemmas

variable {α : Type*} (r : α → α → Prop) [DecidableRel r]

lemma orderedInsert_of_forall_rel {a : α} :
    ∀ {l : List α}, (∀ b ∈ l, r a b) → List.orderedInsert r a l = a :: l
  | [], _ => rfl
  | b :: l, h => by
    simp only [List.orderedInsert, if_pos (h b (by simp))]

lemma insertionSort_eq_self :
    ∀ l : List α, (∀ a ∈ l, ∀ b ∈ l, r a b) → List.insertionSort r l = l := by
  intro l
  induction l with
  | nil => intro _; rfl
  | cons x l ih =>
    intro h
    rw [List.insertionSort, ih fun a ha b hb => h a (by simp [ha]) b (by simp [hb]),
      orderedInsert_of_forall_rel r fun b hb => h x (by simp) b (by simp [hb])]

variable [IsTrans α r]

lemma filter_orderedInsert (p : α → Bool) (a : α) :
    ∀ l : List α, l.Sorted r →
      (List.orderedInsert r a l).filter p =
        if p a then List.orderedInsert r a (l.filter p) else l.filter p := by
  intro l
  induction l with
  | nil =>
    intro _
    cases hpa : p a <;> simp [List.orderedInsert, List.filter, hpa]
  | cons b l ih =>
    intro hsort
    by_cases hab : r a b
    · rw [List.orderedInsert, if_pos hab]
      cases hpa : p a with
      | false =>
        simp [List.filter, hpa]
      | true =>
        cases hpb : p b with
        | true =>
          simp [List.filter, hpa, hpb, List.orderedInsert, if_pos hab]
        | false =>
          have hal : ∀ c ∈ l.filter p, r a c := by
            intro c hc
            exact Trans.trans hab
              (List.rel_of_sorted_cons hsort c (List.mem_of_mem_filter hc))
          simp [List.filter, hpa, hpb, orderedInsert_of_forall_rel r hal]
    · rw [List.orderedInsert, if_neg hab]
      have ihs := ih hsort.of_cons
      cases hpa : p a with
      | false =>
        simp only [hpa, if_neg Bool.false_ne_true] at ihs ⊢
        cases hpb : p b <;> simp [List.filter, hpb, ihs]
      | true =>
        simp only [hpa, if_pos rfl] at ihs ⊢
        cases hpb : p b with
        | true =>
          simp [List.filter, hpb, ihs, List.orderedInsert, if_neg hab]
        | false =>
          simp [List.filter, hpb, ihs]

variable [IsTotal α r]

lemma filter_insertionSort (p : α → Bool) :
    ∀ l : List α,
      (List.insertionSort r l).filter p = List.insertionSort r (l.filter p) := by
  intro l
  induction l with
  | nil => rfl
  | cons x l ih =>
    rw [List.insertionSort,
      filter_orderedInsert r p x _ (List.sorted_insertionSort r l), ih]
    cases hpx : p x with
    | true => simp [List.filter, hpx, List.insertionSort]
    | false => simp [List.filter, hpx]

end SortLemmas

lemma annotateRows_map_orig (s l : Nat) :
    ∀ (hist rows : List Row), (annotateRows s l hist rows).map AnnRow.orig = rows := by
  intro hist rows
  induction rows generalizing hist with
  | nil => rfl
  | cons r rest ih => simp [annotateRows, ih]

lemma annotateRows_filter (s l e : Nat) :
    ∀ (hist rows : List Row),
      (annotateRows s l hist rows).filter (fun a => a.orig.stock == e) =
        annotateRows s l (hist.filter fun x => x.stock == e)
          (rows.filter fun x => x.stock == e) := by
  intro hist rows
  induction rows generalizing hist with
  | nil => rfl
  | cons r rest ih =>
    by_cases he : r.stock = e
    · subst he
      simp only [annotateRows, List.filter_cons]
      rw [ih (hist ++ [r]), List.filter_append]
      simp [annotateRows, List.filter_filter]
    · have hre : (r.stock == e) = false := by simpa using he
      simp only [annotateRows, List.filter_cons, hre]
      rw [ih (hist ++ [r]), List.filter_append]
      simp [hre]

/-- Filtering the output of `compute_sma` to one entity is the same as running
`compute_sma` on that entity's rows alone. -/
lemma compute_sma_filter (df : List Row) (s l e : Nat) :
    (compute_sma df s l).filter (fun a => a.orig.stock == e) =
      annotateRows s l [] (List.insertionSort rowLe (df.filter fun x => x.stock == e)) := by
  rw [compute_sma, annotateRows_filter, sortRows,
    filter_insertionSort rowLe (fun x => x.stock == e) df]
  rfl

lemma runningBest_count (a b c : List (Option TS)) :
    countSome (runningBest a [b, c]) =
      max (max (countSome a) (countSome b)) (countSome c) := by
  simp only [runningBest, List.foldl]
  by_cases h1 : countSome b > countSome a
  · simp only [if_pos h1]
    by_cases h2 : countSome c > countSome b
    · simp only [if_pos h2]; rw [Nat.max_def, Nat.max_def]; split_ifs <;> omega
    · simp only [if_neg h2]; rw [Nat.max_def, Nat.max_def]; split_ifs <;> omega
  · simp only [if_neg h1]
    by_cases h2 : countSome c > countSome a
    · simp only [if_pos h2]; rw [Nat.max_def, Nat.max_def]; split_ifs <;> omega
    · simp only [if_neg h2]; rw [Nat.max_def, Nat.max_def]; split_ifs <;> omega

lemma runningBest_first (a b c : List (Option TS))
    (h1 : countSome b ≤ countSome a) (h2 : countSome c ≤ countSome a) :
    runningBest a [b, c] = a := by
  simp only [runningBest, List.foldl]
  rw [if_neg (show ¬ countSome b > countSome a by omega)]
  rw [if_neg (show ¬ countSome c > countSome a by omega)]

lemma runningBest_second (a b c : List (Option TS))
    (h1 : countSome a < countSome b) (h2 : countSome c ≤ countSome b) :
    runningBest a [b, c] = b := by
  simp only [runningBest, List.foldl]
  rw [if_pos (show countSome b > countSome a by omega)]
  rw [if_neg (show ¬ countSome c > countSome b by omega)]

lemma runningBest_third (a b c : List (Option TS))
    (h : max (countSome a) (countSome b) < countSome c) :
    runningBest a [b, c] = c := by
  have ha := Nat.le_max_left (countSome a) (countSome b)
  have hb := Nat.le_max_right (countSome a) (countSome b)
  simp only [runningBest, List.foldl]
  by_cases h1 : countSome b > countSome a
  · rw [if_pos h1, if_pos (by omega)]
  · rw [if_neg h1, if_pos (by omega)]

lemma strategyA_length {parse : Bool → List String → List (Option TS)}
    (hlen : ∀ b xs, (parse b xs).length = xs.length) (series : List RawVal) :
    (strategyA parse series).length = series.length := by
  rw [strategyA, hlen, length_preClean]

lemma strategyB_length {parse : Bool → List String → List (Option TS)}
    (hlen : ∀ b xs, (parse b xs).length = xs.length) (series : List RawVal) :
    (strategyB parse series).length = series.length := by
  rw [strategyB, hlen, length_preClean]

lemma strategyC_length {parse : Bool → List String → List (Option TS)}
    (hlen : ∀ b xs, (parse b xs).length = xs.length) (series : List RawVal) :
    (strategyC parse series).length = series.length := by
  rw [strategyC, hlen, List.length_map, length_preClean]

lemma runningBest_length {parse : Bool → List String → List (Option TS)}
    (hlen : ∀ b xs, (parse b xs).length = xs.length) (series : List RawVal) :
    (runningBest (strategyA parse series)
      [strategyB parse series, strategyC parse series]).length = series.length := by
  rcases runningBest_mem (strategyA parse series) (strategyB parse series)
      (strategyC parse series) with h | h | h <;> rw [h]
  · exact strategyA_length hlen series
  · exact strategyB_length hlen series
  · exact strategyC_length hlen series

/-!
## The claims
-/

/-- A five-entry slash-separated date column: three entries parseable under a
month-first format, the last two parseable only day-first. -/
def mixedSeries : List RawVal :=
  [.str "01/02/2020", .str "02/02/2020", .str "03/02/2020",
   .str "13/02/2020", .str "14/02/2020"]

/-- Models `pd.to_datetime(·, errors="coerce", infer_datetime_format=True,
dayfirst=df)` on the entries of `mixedSeries`: the format is inferred from the
first entry (`%m/%d/%Y` when `dayfirst=False`, `%d/%m/%Y` when
`dayfirst=True`) and applied to every entry, entries whose month field would
exceed 12 coercing to `NaT`.  Timestamps are encoded as `yyyymmdd`
integers. -/
def parseMixed (dayfirst : Bool) (xs : List String) : List (Option TS) :=
  xs.map fun s =>
    if dayfirst then
      if s = "01/02/2020" then some 20200201
      else if s = "02/02/2020" then some 20200202
      else if s = "03/02/2020" then some 20200203
      else if s = "13/02/2020" then some 20200213
      else if s = "14/02/2020" then some 20200214
      else none
    else
      if s = "01/02/2020" then some 20200102
      else if s = "02/02/2020" then some 20200202
      else if s = "03/02/2020" then some 20200302
      else none

/-- `pd.to_numeric(·, errors="coerce")` on non-numeric values: everything
coerces to `NaN`. -/
def toNumericNone (_ : RawVal) : Option ℚ := none

/-- An epoch interpreter that never succeeds; its behavior is irrelevant
whenever the numeric column is entirely null. -/
def epochNone (_ : ℚ) : Option TS := none

/-- C1 (counterexample): on `mixedSeries`, Strategy A reaches the 60 %
threshold (3 of 5), Strategy B parses strictly more entries (5 of 5), yet
`robust_parse_dates` returns Strategy A's result — the early return at line 29
prevents the replacement the claim asserts. -/
theorem c1_counterexample :
    10 * countSome (strategyA parseMixed mixedSeries) ≥ 6 * (preClean mixedSeries).length ∧
    countSome (strategyB parseMixed mixedSeries) >
      countSome (strategyA parseMixed mixedSeries) ∧
    robust_parse_dates parseMixed toNumericNone epochNone epochNone mixedSeries =
      strategyA parseMixed mixedSeries ∧
    robust_parse_dates parseMixed toNumericNone epochNone epochNone mixedSeries ≠
      strategyB parseMixed mixedSeries := by decide

/-- C1 (amended): when Strategy A parses at least 60 % of all rows (the
threshold of line 28 counts every row, not only non-empty ones), its result is
returned immediately and Strategies B, C and D are never attempted; otherwise
the result is the running best of the three full-series strategies — replaced
only on a strict parsed-count improvement, ties keeping the earlier
strategy — followed by the epoch fill. -/
theorem c1_cascade_rule (parse : Bool → List String → List (Option TS))
    (toNumeric : RawVal → Option ℚ) (epochMs epochS : ℚ → Option TS)
    (series : List RawVal) :
    robust_parse_dates parse toNumeric epochMs epochS series =
      (if 10 * countSome (strategyA parse series) ≥ 6 * (preClean series).length then
        strategyA parse series
      else
        epochFill toNumeric epochMs epochS series
          (runningBest (strategyA parse series)
            [strategyB parse series, strategyC parse series])) ∧
    countSome (runningBest (strategyA parse series)
        [strategyB parse series, strategyC parse series]) =
      max (max (countSome (strategyA parse series)) (countSome (strategyB parse series)))
        (countSome (strategyC parse series)) ∧
    (countSome (strategyB parse series) ≤ countSome (strategyA parse series) ∧
        countSome (strategyC parse series) ≤ countSome (strategyA parse series) →
      runningBest (strategyA parse series)
        [strategyB parse series, strategyC parse series] = strategyA parse series) ∧
    (countSome (strategyA parse series) < countSome (strategyB parse series) ∧
        countSome (strategyC parse series) ≤ countSome (strategyB parse series) →
      runningBest (strategyA parse series)
        [strategyB parse series, strategyC parse series] = strategyB parse series) ∧
    (max (countSome (strategyA parse series)) (countSome (strategyB parse series)) <
        countSome (strategyC parse series) →
      runningBest (strategyA parse series)
        [strategyB parse series, strategyC parse series] = strategyC parse series) :=
  ⟨robust_eq_cascade parse toNumeric epochMs epochS series,
   runningBest_count _ _ _,
   fun h => runningBest_first _ _ _ h.1 h.2,
   fun h => runningBest_second _ _ _ h.1 h.2,
   fun h => runningBest_third _ _ _ h⟩

/-- Witness for `c1_cascade_rule`: on `mixedSeries` Strategy B strictly beats
Strategy A (5 > 3) and Strategy C does not beat B, so the running best is
Strategy B's parse. -/
theorem c1_cascade_rule_witness :
    runningBest (strategyA parseMixed mixedSeries)
      [strategyB parseMixed mixedSeries, strategyC parseMixed mixedSeries] =
      strategyB parseMixed mixedSeries :=
  (c1_cascade_rule parseMixed toNumericNone epochNone epochNone mixedSeries).2.2.2.1
    ⟨by decide, by decide⟩

/-- C7: `robust_parse_dates` is total (it is a Lean function, so it raises
nothing and always returns) and its output has one entry — a timestamp or a
null — per input entry, in input order, provided the series-level parse
primitive is length-preserving, as `pd.to_datetime(errors="coerce")` is. -/
theorem c7_same_length (parse : Bool → List String → List (Option TS))
    (toNumeric : RawVal → Option ℚ) (epochMs epochS : ℚ → Option TS)
    (series : List RawVal)
    (hlen : ∀ b xs, (parse b xs).length = xs.length) :
    (robust_parse_dates parse toNumeric epochMs epochS series).length = series.length := by
  rw [robust_eq_cascade]
  split
  · exact strategyA_length hlen series
  · have hrb := runningBest_length hlen series
    unfold epochFill
    split
    · split
      · split
        · simp [fillna, hrb]
        · split
          · simp [fillna, hrb]
          · exact hrb
      · exact hrb
    · exact hrb

/-- Witness for `c7_same_length` at a concrete two-entry series and a parse
primitive that parses nothing. -/
theorem c7_same_length_witness :
    (robust_parse_dates (fun _ xs => xs.map fun _ => none) toNumericNone epochNone epochNone
      [RawVal.null, RawVal.str "x"]).length = 2 :=
  c7_same_length _ _ _ _ _ (fun _ xs => by simp)

/-- C5 (counterexample): the placeholder mapping is neither case-insensitive
nor whole-token.  `"None"` survives the pre-clean unchanged (the anchored
patterns are case-sensitive), while `"BANANA"` loses both of its `"NA"`
substrings (the `N/A`/`NA` patterns are unanchored). -/
theorem c5_counterexample :
    preClean [.str "None", .str "BANANA"] = ["None", "BA"] ∧
    ("None" : String) ≠ "" ∧ ("BA" : String) ≠ "BANANA" := by decide

/-- C5 (amended): the pre-clean trims whitespace, coerces entries to text and
keeps one output entry per input entry; the exact trimmed tokens `"none"`,
`"nan"`, `"N/A"` and `"NA"` map to the empty (missing) marker, but the match
is case-sensitive, `"none"`/`"nan"` match only as whole strings, and
`"N/A"`/`"NA"` are deleted as substrings wherever they occur. -/
theorem c5_preclean_amended (series : List RawVal) (s : String) :
    (preClean series).length = series.length ∧
    (trimStr s = "none" ∨ trimStr s = "nan" ∨ trimStr s = "N/A" ∨ trimStr s = "NA" →
      cleanEntry (.str s) = "") ∧
    cleanEntry .null = "" ∧
    cleanEntry (.str "  2024-01-01  ") = "2024-01-01" ∧
    cleanEntry (.str "None") = "None" ∧
    cleanEntry (.str "BANANA") = "BA" := by
  refine ⟨length_preClean series, ?_, by decide, by decide, by decide, by decide⟩
  intro h
  rcases h with h | h | h | h <;> simp only [cleanEntry, rawToStr] <;> rw [h] <;> decide

/-- Witness for `c5_preclean_amended`: the trimmed token `"nan"` is mapped to
the missing marker. -/
theorem c5_preclean_amended_witness :
    cleanEntry (.str " nan ") = "" :=
  (c5_preclean_amended [] " nan ").2.1 (Or.inr (Or.inl (by decide)))

/-- C6: the numeric-epoch strategy.  First part: Strategy D never overwrites
an entry already parsed by the running best of A/B/C — it only fills nulls.
Second part: on a non-empty series whose every entry is numeric and greater
than `1e12` (and which the string strategies cannot parse, as with pandas on
pure 13-digit numerals), every output entry is the epoch-milliseconds
interpretation of the original value, and is non-null whenever the
milliseconds interpreter succeeds above `1e12`. -/
theorem c6_epoch_fill_semantics (parse : Bool → List String → List (Option TS))
    (toNumeric : RawVal → Option ℚ) (epochMs epochS : ℚ → Option TS)
    (series : List RawVal) :
    ((∀ b xs, (parse b xs).length = xs.length) →
      ¬ 10 * countSome (strategyA parse series) ≥ 6 * (preClean series).length →
      ∀ (i : Nat) (t : TS),
        (runningBest (strategyA parse series)
          [strategyB parse series, strategyC parse series])[i]? = some (some t) →
        (robust_parse_dates parse toNumeric epochMs epochS series)[i]? = some (some t)) ∧
    (series ≠ [] →
      (∀ b xs, (parse b xs).length = xs.length) →
      countSome (strategyA parse series) = 0 →
      countSome (strategyB parse series) = 0 →
      countSome (strategyC parse series) = 0 →
      (∀ v ∈ series, ∃ q, toNumeric v = some q ∧ (10 : ℚ) ^ 12 < q) →
      robust_parse_dates parse toNumeric epochMs epochS series =
        series.map (fun v => (toNumeric v).bind epochMs) ∧
      ((∀ q : ℚ, (10 : ℚ) ^ 12 < q → (epochMs q).isSome = true) →
        ∀ x ∈ robust_parse_dates parse toNumeric epochMs epochS series,
          x.isSome = true)) := by
  constructor
  · intro hlen hne i t h
    rw [robust_eq_cascade, if_neg hne]
    exact epochFill_keep toNumeric epochMs epochS series (runningBest_length hlen series) h
  · intro hS hlen hA hB hC hq
    have hne : ¬ 10 * countSome (strategyA parse series) ≥ 6 * (preClean series).length := by
      rw [hA, length_preClean]
      cases series with
      | nil => exact absurd rfl hS
      | cons v vs => simp
    have hbest : runningBest (strategyA parse series)
        [strategyB parse series, strategyC parse series] = strategyA parse series :=
      runningBest_first _ _ _ (by omega) (by omega)
    have hnum : ∀ x ∈ series.map toNumeric, ∃ q, x = some q ∧ (10 : ℚ) ^ 12 < q := by
      intro x hx
      rw [List.mem_map] at hx
      obtain ⟨v, hv, rfl⟩ := hx
      exact hq v hv
    obtain ⟨m, hm, hm12⟩ :=
      maxQ_gt (by cases series with
        | nil => exact absurd rfl hS
        | cons v vs => simp) hnum
    have hpos : 0 < countSome (series.map toNumeric) := by
      cases series with
      | nil => exact absurd rfl hS
      | cons v vs =>
        obtain ⟨q, hqv, -⟩ := hq v (by simp)
        exact countSome_pos (x := q) (by rw [List.mem_map]; exact ⟨v, by simp, hqv⟩)
    have hE : robust_parse_dates parse toNumeric epochMs epochS series =
        series.map (fun v => (toNumeric v).bind epochMs) := by
      rw [robust_eq_cascade, if_neg hne, hbest]
      unfold epochFill
      rw [if_pos hpos, hm]
      dsimp only
      rw [if_pos hm12]
      rw [fillna_all_none (by simp [strategyA_length hlen series])
        (countSome_eq_zero hA), List.map_map]
      rfl
    refine ⟨hE, ?_⟩
    intro hms x hx
    rw [hE, List.mem_map] at hx
    obtain ⟨v, hv, rfl⟩ := hx
    obtain ⟨q, hqv, hq12⟩ := hq v hv
    rw [hqv]
    simpa using hms q hq12

/-- Witness for `c6_epoch_fill_semantics`: a one-entry all-numeric series
above `1e12` is filled entirely by the milliseconds interpreter. -/
theorem c6_epoch_fill_semantics_witness :
    robust_parse_dates (fun _ xs => xs.map fun _ => none)
      (fun _ => some (10 ^ 12 + 1)) (fun _ => some 0) epochNone [RawVal.null] =
      [some 0] :=
  ((c6_epoch_fill_semantics (fun _ xs => xs.map fun _ => none)
      (fun _ => some (10 ^ 12 + 1)) (fun _ => some 0) epochNone [RawVal.null]).2
    (by simp) (fun _ xs => by simp) (by decide) (by decide) (by decide)
    (fun v _ => ⟨10 ^ 12 + 1, rfl, by norm_num⟩)).1

/-- C4: `compute_sma` returns its rows sorted by entity id and then by
timestamp within each entity, and the sort is stable — the rows carrying any
fixed (entity, timestamp) key appear in exactly their original input order. -/
theorem c4_sorted_and_stable (df : List Row) (s l : Nat) :
    List.Sorted rowLe ((compute_sma df s l).map AnnRow.orig) ∧
    ∀ (st : Nat) (dt : Int),
      ((compute_sma df s l).map AnnRow.orig).filter
          (fun x => x.stock == st && x.date == dt) =
        df.filter (fun x => x.stock == st && x.date == dt) := by
  rw [compute_sma, annotateRows_map_orig, sortRows]
  constructor
  · exact List.sorted_insertionSort rowLe df
  · intro st dt
    rw [filter_insertionSort rowLe (fun x => x.stock == st && x.date == dt) df]
    apply insertionSort_eq_self
    intro a ha b hb
    rw [List.mem_filter] at ha hb
    have ha' := ha.2
    have hb' := hb.2
    simp only [Bool.and_eq_true, beq_iff_eq] at ha' hb'
    exact Or.inr ⟨ha'.1.trans hb'.1.symm, le_of_eq (ha'.2.trans hb'.2.symm)⟩

/-- C9: no cross-entity leakage.  The annotated rows of entity `e` depend only
on the input rows of entity `e`: two tables agreeing on those rows — however
much they differ on other entities' rows — produce identical annotated rows
for `e`.  (The function is deterministic by construction.) -/
theorem c9_no_cross_entity_leakage (df df' : List Row) (s l e : Nat)
    (h : df.filter (fun x => x.stock == e) = df'.filter (fun x => x.stock == e)) :
    (compute_sma df s l).filter (fun a => a.orig.stock == e) =
      (compute_sma df' s l).filter (fun a => a.orig.stock == e) := by
  rw [compute_sma_filter, compute_sma_filter, h]

/-- Witness for `c9_no_cross_entity_leakage`: removing the only row of entity
`2` leaves entity `1`'s annotated rows unchanged. -/
theorem c9_no_cross_entity_leakage_witness :
    (compute_sma [⟨1, 0, 100, []⟩, ⟨2, 0, 50, []⟩] 50 200).filter
        (fun a => a.orig.stock == 1) =
      (compute_sma [⟨1, 0, 100, []⟩] 50 200).filter (fun a => a.orig.stock == 1) :=
  c9_no_cross_entity_leakage _ _ 50 200 1 rfl

/-- C8: in each entity group of the `compute_sma` output, the first row's two
rolling averages equal that row's own close and its daily return is `0`
(for any positive window sizes, as pandas `rolling` requires). -/
theorem c8_first_row_of_group (df : List Row) (s l : Nat) (hs : 0 < s) (hl : 0 < l)
    (e : Nat) (a : AnnRow) (rest : List AnnRow)
    (h : (compute_sma df s l).filter (fun x => x.orig.stock == e) = a :: rest) :
    a.sma50 = a.orig.close ∧ a.sma200 = a.orig.close ∧ a.dailyReturn = 0 := by
  rw [compute_sma_filter] at h
  cases hrows : List.insertionSort rowLe (df.filter fun x => x.stock == e) with
  | nil => rw [hrows] at h; exact absurd h (by simp [annotateRows])
  | cons r rs =>
    rw [hrows] at h
    simp only [annotateRows, List.filter_nil, List.map_nil, List.nil_append,
      List.getLast?_nil] at h
    obtain ⟨ha, -⟩ := List.cons_eq_cons.mp h
    have hmean : ∀ n : Nat, 0 < n → mean (lastN n [r.close]) = r.close := by
      intro n hn
      have hdrop : lastN n [r.close] = [r.close] := by
        unfold lastN
        rw [show [r.close].length - n = 0 by simp; omega]
        rfl
      rw [hdrop, mean]
      simp
    rw [← ha]
    exact ⟨hmean s hs, hmean l hl, rfl⟩

/-- Witness for `c8_first_row_of_group` on a one-row table with windows 2
and 3. -/
theorem c8_first_row_of_group_witness :
    (⟨⟨1, 0, 100, []⟩, 100, 100, 0⟩ : AnnRow).sma50 = (⟨1, 0, 100, []⟩ : Row).close ∧
    (⟨⟨1, 0, 100, []⟩, 100, 100, 0⟩ : AnnRow).sma200 = (⟨1, 0, 100, []⟩ : Row).close ∧
    (⟨⟨1, 0, 100, []⟩, 100, 100, 0⟩ : AnnRow).dailyReturn = 0 := by
  have h : (compute_sma [⟨1, 0, 100, []⟩] 2 3).filter (fun x => x.orig.stock == 1) =
      [⟨⟨1, 0, 100, []⟩, 100, 100, 0⟩] := by
    norm_num [compute_sma, sortRows, annotateRows, mean, lastN,
      List.insertionSort, List.orderedInsert]
  exact c8_first_row_of_group _ 2 3 (by norm_num) (by norm_num) 1 _ [] h

/-- C10: for every choice of (positive or not) window arguments,
`compute_sma` adds exactly the columns named `"SMA_50"`, `"SMA_200"` and
`"Daily_Return"` — the names are fixed literals that ignore the window
sizes — and each output row carries its original row (all original columns
and values) unchanged, the row list being the sorted input. -/
theorem c10_fixed_columns_preserve_rows (df : List Row) (s l : Nat) :
    smaColumnNames s l = ["SMA_50", "SMA_200", "Daily_Return"] ∧
    (compute_sma df s l).map AnnRow.orig = sortRows df :=
  ⟨rfl, annotateRows_map_orig s l [] (sortRows df)⟩

/-- A one-row frame whose `SMA_50`/`SMA_200` columns were never computed
(annotation skipped), with `Daily_Return` present. -/
def noSmaFrame : StockFrame := ⟨[⟨0, 100, 0, 0, 0⟩], true, false, false⟩

/-- C2: evaluated at a frame without the rolling-average columns, the final
averages are `NaN`, both NaN comparisons are `False`, and `compute_insights`
*returns* the default signal `"Neutral"` — it raises nothing, contradicting
the claimed `UndefinedSignalError`. -/
theorem c2_missing_sma_returns_neutral :
    compute_insights noSmaFrame = .ok ⟨100, 0, 100, 100, 0, "Neutral"⟩ ∧
    ∃ r : Insights, compute_insights noSmaFrame = .ok r := by
  have h : compute_insights noSmaFrame = .ok ⟨100, 0, 100, 100, 0, "Neutral"⟩ := by
    norm_num [compute_insights, noSmaFrame, sortIns, List.insertionSort,
      List.orderedInsert, listMaxFrom, listMinFrom, optGt, optLt]
  exact ⟨h, _, h⟩

/-- The empty single-entity frame (all columns present, no rows). -/
def emptyFrame : StockFrame := ⟨[], true, true, true⟩

/-- C3 (counterexample): on the empty series `compute_insights` fails with the
positional `IndexError` of `d["Close"].iloc[-1]`; no `EmptyInputError` class
exists in the repository and none is raised. -/
theorem c3_counterexample :
    compute_insights emptyFrame = .error .indexError ∧
    compute_insights emptyFrame ≠ .error .emptyInputError := by
  constructor
  · rfl
  · intro h
    rw [show compute_insights emptyFrame = .error .indexError from rfl] at h
    simp at h

/-- C3 (amended): an empty entity series makes `compute_insights` fail loudly
(with the `IndexError` of `.iloc[-1]`, not a dedicated `EmptyInputError`);
and every summary it does return comes from a non-empty frame whose
`Daily_Return` column is present, with the last-row statistics read from the
data — the `0.0` placeholder of line 69 can never reach a returned summary,
because line 72 raises `KeyError` first whenever the column is absent. -/
theorem c3_empty_fails_loudly (f : StockFrame) :
    (f.rows = [] → compute_insights f = .error .indexError) ∧
    (∀ ins, compute_insights f = .ok ins →
      f.rows ≠ [] ∧ f.hasDailyReturn = true ∧
      ∃ lr, lastRowSorted f = some lr ∧
        ins.last_close = lr.close ∧ ins.return_1d = lr.dailyReturn) := by
  constructor
  · intro h
    have hs : sortIns f.rows = [] := by rw [h]; rfl
    simp [compute_insights, hs]
  · intro ins h
    have hne : f.rows ≠ [] := by
      intro hnil
      have hs : sortIns f.rows = [] := by rw [hnil]; rfl
      rw [show compute_insights f = .error .indexError by simp [compute_insights, hs]] at h
      exact Except.noConfusion h
    rcases hd : (sortIns f.rows).getLast? with - | lr
    · rw [show compute_insights f = .error .indexError by
        unfold compute_insights; rw [hd]] at h
      exact absurd h (by simp)
    · cases hR : f.hasDailyReturn with
      | false =>
        rw [show compute_insights f = .error .keyError by
          unfold compute_insights; rw [hd, hR]; rfl] at h
        exact absurd h (by simp)
      | true =>
        have hcomp : compute_insights f =
            .ok ⟨lr.close, lr.dailyReturn,
              listMaxFrom lr.close ((sortIns f.rows).map InsRow.close),
              listMinFrom lr.close ((sortIns f.rows).map InsRow.close),
              ((sortIns f.rows).map InsRow.dailyReturn).sum /
                (((sortIns f.rows).length : ℚ)),
              if optGt (if f.hasSMA50 then some lr.sma50 else none)
                  (if f.hasSMA200 then some lr.sma200 else none) then
                "Golden Cross (Bullish)"
              else if optLt (if f.hasSMA50 then some lr.sma50 else none)
                  (if f.hasSMA200 then some lr.sma200 else none) then
                "Death Cross (Bearish)"
              else "Neutral"⟩ := by
          unfold compute_insights
          rw [hd, hR]
          rfl
        rw [hcomp] at h
        injection h with h2
        subst h2
        exact ⟨hne, rfl, lr, hd, rfl, rfl⟩

/-- A one-row frame with all columns present; its summary carries the actual
last-row values. -/
def oneRowFrame : StockFrame := ⟨[⟨0, 100, 5, 1, 2⟩], true, true, true⟩

/-- Witness for `c3_empty_fails_loudly`: both implications discharged at
concrete frames.  `oneRowFrame` summarizes successfully (its final short
average 1 is below its final long average 2, hence the bearish signal) and the
summary's statistics are the last row's. -/
theorem c3_empty_fails_loudly_witness :
    compute_insights emptyFrame = .error .indexError ∧
    (oneRowFrame.rows ≠ [] ∧ oneRowFrame.hasDailyReturn = true ∧
      ∃ lr, lastRowSorted oneRowFrame = some lr ∧
        (⟨100, 5, 100, 100, 5, "Death Cross (Bearish)"⟩ : Insights).last_close = lr.close ∧
        (⟨100, 5, 100, 100, 5, "Death Cross (Bearish)"⟩ : Insights).return_1d =
          lr.dailyReturn) := by
  have h : compute_insights oneRowFrame =
      .ok ⟨100, 5, 100, 100, 5, "Death Cross (Bearish)"⟩ := by
    norm_num [compute_insights, oneRowFrame, sortIns, List.insertionSort,
      List.orderedInsert, listMaxFrom, listMinFrom, optGt, optLt]
  exact ⟨(c3_empty_fails_loudly emptyFrame).1 rfl,
    (c3_empty_fails_loudly oneRowFrame).2 _ h⟩
